import Mathlib

/-!
Formal model of the tactus hypothesis tracker engine, from the module
tactus/tactus_hypothesis_tracker.py. Onset times, confidence values and
similarity values are modelled as rationals; populations are lists of
trackers in generation order. The collaborating playback cursor and the
base hypothesis-from-index constructor are not part of the given sources
and are modelled from the specification, as marked on their definitions.
-/

/-- Modelled from the spec: the playback module (class OngoingPlayback) is
not among the given sources. Per the spec it is constructed from the onset
sequence and exposes a monotonically advancing discovered-index cursor, an
advance operation reporting whether a new onset was revealed, and read
access to the full onset sequence. `discovered_index` counts the onsets
revealed so far (so `discovered_index - 1` is the index of the onset just
revealed); this is the reading under which the spec's worked scenario on
onsets [0, 500, 1000] produces trackers (0,1) and (1,2). -/
structure OngoingPlayback where
  onset_times : List ℚ
  discovered_index : ℕ
deriving DecidableEq

/-- Modelled from the spec: advancing reveals one more onset when available
and reports failure once the sequence is exhausted. -/
def OngoingPlayback.advance (p : OngoingPlayback) : Option OngoingPlayback :=
  if p.discovered_index < p.onset_times.length then
    some { p with discovered_index := p.discovered_index + 1 }
  else
    none

/-- Result of the externally supplied correction function. The engine only
reads the proposed new (rho, delta) pair via `new_hypothesis` (called as a
method in the Python source). -/
structure HypothesisCorrection where
  new_hypothesis : ℚ × ℚ
deriving DecidableEq

/-- The HypothesisTracker entity: origin onset indices, the initial
hypothesis `beta`, the current hypothesis `htuple`, the correction history
`corr` and the confidence history `confs`, plus the shared onset sequence. -/
structure HypothesisTracker where
  start_idx : ℕ
  end_idx : ℕ
  onset_times : List ℚ
  beta : ℚ × ℚ
  htuple : ℚ × ℚ
  corr : List (ℕ × HypothesisCorrection)
  confs : List (ℕ × ℚ)
deriving DecidableEq

/-- Modelled from the spec: the hypothesis module (HypothesisFromIndex) is
not among the given sources. Per the spec, a hypothesis built from two
onset indices has rho equal to the start onset time and delta equal to the
difference of the two onset times; `current` starts equal to `beta`, and
both histories start empty. -/
def HypothesisTracker.fromIndex (start_idx end_idx : ℕ)
    (onset_times : List ℚ) : HypothesisTracker :=
  let rho := onset_times.getD start_idx 0
  let delta := onset_times.getD end_idx 0 - onset_times.getD start_idx 0
  { start_idx := start_idx
    end_idx := end_idx
    onset_times := onset_times
    beta := (rho, delta)
    htuple := (rho, delta)
    corr := []
    confs := [] }

/-- Modelled from the spec: the tracker's identifying name is its origin
index pair (used as the key of the returned mapping). -/
def HypothesisTracker.name (ht : HypothesisTracker) : ℕ × ℕ :=
  (ht.start_idx, ht.end_idx)

/-- HypothesisTracker.update: obtain a correction, append it to the
correction history, set the current hypothesis to the corrected one, and
only then evaluate the confidence (on the already-corrected tracker) and
append it to the confidence history. -/
def HypothesisTracker.update (ht : HypothesisTracker)
    (ongoing_play : OngoingPlayback)
    (eval_f : HypothesisTracker → OngoingPlayback → ℚ)
    (corr_f : HypothesisTracker → OngoingPlayback → HypothesisCorrection) :
    HypothesisTracker :=
  let correction := corr_f ht ongoing_play
  let ht1 := { ht with
    corr := ht.corr ++ [(ongoing_play.discovered_index, correction)]
    htuple := correction.new_hypothesis }
  let n_conf := eval_f ht1 ongoing_play
  { ht1 with confs := ht1.confs ++ [(ongoing_play.discovered_index, n_conf)] }

/-- The `cur` property of the tracker. -/
def HypothesisTracker.cur (ht : HypothesisTracker) : ℚ × ℚ :=
  ht.htuple

/-- The `conf` property reads the last confidence entry; the Python
accessor `self.confs[-1][1]` faults when the history is empty, modelled
here by the `none` case. -/
def HypothesisTracker.conf? (ht : HypothesisTracker) : Option ℚ :=
  ht.confs.getLast?.map Prod.snd

/-- Totalized latest confidence as used inside the engine; the default is
never read during an engine run because every tracker is updated before
its confidence is read. -/
def HypothesisTracker.conf (ht : HypothesisTracker) : ℚ :=
  ht.conf?.getD 0

/-- The `origin_onsets` accessor: (beta[0], sum(beta)). -/
def HypothesisTracker.origin_onsets (ht : HypothesisTracker) : ℚ × ℚ :=
  (ht.beta.1, ht.beta.1 + ht.beta.2)

/-- Engine configuration: evaluation, correction and similarity functions,
similarity threshold, period bounds, and maximum population size. -/
structure TactusHypothesisTracker where
  eval_f : HypothesisTracker → OngoingPlayback → ℚ
  corr_f : HypothesisTracker → OngoingPlayback → HypothesisCorrection
  sim_f : HypothesisTracker → HypothesisTracker → OngoingPlayback → ℚ
  similarity_epsilon : ℚ
  min_delta : ℚ
  max_delta : ℚ
  max_hypotheses : ℕ

namespace TactusHypothesisTracker

/-- The `_generate_new_hypothesis` step: with `end_index` one less than the
discovered index, yield a tracker for each start index k below `end_index`
whose period `onset_times[end_index] - onset_times[k]` lies within
[min_delta, max_delta], in increasing k order. -/
def generate_new_hypothesis (t : TactusHypothesisTracker)
    (ongoing_play : OngoingPlayback) : List HypothesisTracker :=
  let end_index := ongoing_play.discovered_index - 1
  (List.range end_index).filterMap fun k =>
    let delta := ongoing_play.onset_times.getD end_index 0 -
      ongoing_play.onset_times.getD k 0
    if t.min_delta ≤ delta ∧ delta ≤ t.max_delta then
      some (HypothesisTracker.fromIndex k end_index ongoing_play.onset_times)
    else
      none

/-- Fuel-bounded worker for the `_trim_similar_hypotheses` loop: take the
first remaining tracker as a kept representative, split the rest into the
trackers whose similarity to it strictly exceeds 1 - similarity_epsilon
(trimmed, recorded with their representative) and the survivors, and
recurse on the survivors. The fuel argument only makes the recursion
structural; the wrapper supplies fuel equal to the list length, which the
loop can never exhaust, so the worker is exactly the source's deque loop. -/
def trim_aux (t : TactusHypothesisTracker) (ongoing_play : OngoingPlayback) :
    ℕ → List HypothesisTracker →
    List HypothesisTracker × List (HypothesisTracker × HypothesisTracker)
  | _, [] => ([], [])
  | 0, _ :: _ => ([], [])
  | fuel + 1, ht :: remaining =>
    (ht :: (t.trim_aux ongoing_play fuel (remaining.filter fun n_ht =>
        decide (¬ t.sim_f ht n_ht ongoing_play > 1 -
          t.similarity_epsilon))).1,
     ((remaining.filter fun n_ht =>
        decide (t.sim_f ht n_ht ongoing_play > 1 -
          t.similarity_epsilon)).map fun n_ht => (n_ht, ht)) ++
       (t.trim_aux ongoing_play fuel (remaining.filter fun n_ht =>
        decide (¬ t.sim_f ht n_ht ongoing_play > 1 -
          t.similarity_epsilon))).2)

/-- The `_trim_similar_hypotheses` step: greedily take the first remaining
tracker as a kept representative, trim every later remaining tracker whose
similarity to it strictly exceeds 1 - similarity_epsilon (recording the
trimmed tracker with its representative), and recurse on the survivors. -/
def trim_similar_hypotheses (t : TactusHypothesisTracker)
    (ongoing_play : OngoingPlayback)
    (hts : List HypothesisTracker) :
    List HypothesisTracker × List (HypothesisTracker × HypothesisTracker) :=
  t.trim_aux ongoing_play hts.length hts

/-- The sort keys of `_split_k_best_hypotheses`: the pair
(-confidence, generation index) for each tracker, compared
lexicographically as Python compares tuples. -/
def hts_info (hts : List HypothesisTracker) : List (Lex (ℚ × ℕ)) :=
  hts.enum.map fun p => toLex (-(p.2.conf), p.1)

/-- The set (as a list) of generation indices retained by the selection
step: indices appearing among the first max_hypotheses entries of the
sorted key list. -/
def best_hts_idx (t : TactusHypothesisTracker)
    (hts : List HypothesisTracker) : List ℕ :=
  ((List.insertionSort (· ≤ ·) (hts_info hts)).take t.max_hypotheses).map
    fun x => (ofLex x).2

/-- The `_split_k_best_hypotheses` step: keep the trackers whose generation
index is among the best indices, in generation order; the rest are dropped,
also in generation order. -/
def split_k_best_hypotheses (t : TactusHypothesisTracker)
    (hts : List HypothesisTracker) :
    List HypothesisTracker × List HypothesisTracker :=
  let best := t.best_hts_idx hts
  ((hts.enum.filter fun p => decide (p.1 ∈ best)).map Prod.snd,
   (hts.enum.filter fun p => decide (¬ p.1 ∈ best)).map Prod.snd)

/-- Update every tracker of the population, in population order. -/
def updateAll (t : TactusHypothesisTracker) (ongoing_play : OngoingPlayback)
    (hts : List HypothesisTracker) : List HypothesisTracker :=
  hts.map fun h => h.update ongoing_play t.eval_f t.corr_f

/-- One iteration of the engine loop body: generate and append new
trackers, update all, trim similar ones, and keep the k best. -/
def step (t : TactusHypothesisTracker) (ongoing_play : OngoingPlayback)
    (hts : List HypothesisTracker) : List HypothesisTracker :=
  let n_hts := t.generate_new_hypothesis ongoing_play
  let updated := t.updateAll ongoing_play (hts ++ n_hts)
  let kept := (t.trim_similar_hypotheses ongoing_play updated).1
  (t.split_k_best_hypotheses kept).1

/-- The engine's while loop, with fuel bounding the number of advances
(the run supplies fuel equal to the onset count, which is exact). -/
def loop (t : TactusHypothesisTracker) :
    ℕ → OngoingPlayback → List HypothesisTracker → List HypothesisTracker
  | 0, _, hts => hts
  | fuel + 1, play, hts =>
    match play.advance with
    | none => hts
    | some play1 => t.loop fuel play1 (t.step play1 hts)

/-- A full engine run (`__call__`): drive the cursor over the onsets from
an empty population and return the final population keyed by tracker name.
The Python dict is modelled as an association list; keys are provably
distinct within a run. -/
def run (t : TactusHypothesisTracker) (onset_times : List ℚ) :
    List ((ℕ × ℕ) × HypothesisTracker) :=
  let final := t.loop onset_times.length ⟨onset_times, 0⟩ []
  final.map fun ht => (ht.name, ht)

/-- The population after the first n steps of a run, used to state
invariants about intermediate populations; `popAt` at the onset count
coincides with the final population of `run`. -/
def popAt (t : TactusHypothesisTracker) (onset_times : List ℚ) :
    ℕ → List HypothesisTracker
  | 0 => []
  | n + 1 =>
    if n < onset_times.length then
      t.step ⟨onset_times, n + 1⟩ (t.popAt onset_times n)
    else
      t.popAt onset_times n

end TactusHypothesisTracker

/-- A concrete evaluation function for witnesses: constant confidence 1. -/
def constEval : HypothesisTracker → OngoingPlayback → ℚ := fun _ _ => 1

/-- A concrete correction function for witnesses: keep the hypothesis. -/
def idCorr : HypothesisTracker → OngoingPlayback → HypothesisCorrection :=
  fun ht _ => { new_hypothesis := ht.htuple }

/-- A concrete similarity function for witnesses: constant similarity 0. -/
def constSim : HypothesisTracker → HypothesisTracker → OngoingPlayback → ℚ :=
  fun _ _ _ => 0

/-- A concrete configuration for witnesses, matching the spec's worked
scenario: period window [400, 600], up to 10 hypotheses. -/
def sampleCfg : TactusHypothesisTracker :=
  { eval_f := constEval
    corr_f := idCorr
    sim_f := constSim
    similarity_epsilon := 1 / 10
    min_delta := 400
    max_delta := 600
    max_hypotheses := 10 }

/-- A default tracker used only to state getD-based claims. -/
def defaultTracker : HypothesisTracker :=
  HypothesisTracker.fromIndex 0 0 []

namespace HypothesisTracker

theorem update_corr (ht : HypothesisTracker) (play : OngoingPlayback)
    (e : HypothesisTracker → OngoingPlayback → ℚ)
    (c : HypothesisTracker → OngoingPlayback → HypothesisCorrection) :
    (ht.update play e c).corr =
      ht.corr ++ [(play.discovered_index, c ht play)] := rfl

theorem update_htuple (ht : HypothesisTracker) (play : OngoingPlayback)
    (e : HypothesisTracker → OngoingPlayback → ℚ)
    (c : HypothesisTracker → OngoingPlayback → HypothesisCorrection) :
    (ht.update play e c).htuple = (c ht play).new_hypothesis := rfl

theorem update_confs (ht : HypothesisTracker) (play : OngoingPlayback)
    (e : HypothesisTracker → OngoingPlayback → ℚ)
    (c : HypothesisTracker → OngoingPlayback → HypothesisCorrection) :
    (ht.update play e c).confs =
      ht.confs ++ [(play.discovered_index,
        e { ht with
              corr := ht.corr ++ [(play.discovered_index, c ht play)]
              htuple := (c ht play).new_hypothesis } play)] := rfl

theorem update_start_idx (ht : HypothesisTracker) (play : OngoingPlayback)
    (e : HypothesisTracker → OngoingPlayback → ℚ)
    (c : HypothesisTracker → OngoingPlayback → HypothesisCorrection) :
    (ht.update play e c).start_idx = ht.start_idx := rfl

theorem update_end_idx (ht : HypothesisTracker) (play : OngoingPlayback)
    (e : HypothesisTracker → OngoingPlayback → ℚ)
    (c : HypothesisTracker → OngoingPlayback → HypothesisCorrection) :
    (ht.update play e c).end_idx = ht.end_idx := rfl

theorem update_beta (ht : HypothesisTracker) (play : OngoingPlayback)
    (e : HypothesisTracker → OngoingPlayback → ℚ)
    (c : HypothesisTracker → OngoingPlayback → HypothesisCorrection) :
    (ht.update play e c).beta = ht.beta := rfl

theorem update_name (ht : HypothesisTracker) (play : OngoingPlayback)
    (e : HypothesisTracker → OngoingPlayback → ℚ)
    (c : HypothesisTracker → OngoingPlayback → HypothesisCorrection) :
    (ht.update play e c).name = ht.name := rfl

theorem fromIndex_name (s e : ℕ) (os : List ℚ) :
    (HypothesisTracker.fromIndex s e os).name = (s, e) := rfl

end HypothesisTracker

namespace TactusHypothesisTracker

theorem trim_aux_kept_sublist (t : TactusHypothesisTracker)
    (play : OngoingPlayback) :
    ∀ fuel hts, (t.trim_aux play fuel hts).1.Sublist hts := by
  intro fuel
  induction fuel with
  | zero =>
    intro hts
    cases hts <;> exact List.nil_sublist _
  | succ f ih =>
    intro hts
    cases hts with
    | nil => exact List.nil_sublist _
    | cons ht remaining =>
      exact List.cons_sublist_cons.mpr
        ((ih _).trans (List.filter_sublist _))

theorem trim_kept_sublist (t : TactusHypothesisTracker)
    (play : OngoingPlayback) (hts : List HypothesisTracker) :
    (t.trim_similar_hypotheses play hts).1.Sublist hts :=
  trim_aux_kept_sublist t play hts.length hts

theorem trim_aux_perm (t : TactusHypothesisTracker)
    (play : OngoingPlayback) :
    ∀ fuel hts, hts.length ≤ fuel →
      ((t.trim_aux play fuel hts).1 ++
        (t.trim_aux play fuel hts).2.map Prod.fst).Perm hts := by
  intro fuel
  induction fuel with
  | zero =>
    intro hts h
    have hnil : hts = [] := List.length_eq_zero.mp (by omega)
    subst hnil
    exact List.Perm.refl _
  | succ f ih =>
    intro hts h
    cases hts with
    | nil => exact List.Perm.refl _
    | cons ht remaining =>
      have hle : (remaining.filter fun n_ht =>
          decide (¬ t.sim_f ht n_ht play > 1 -
            t.similarity_epsilon)).length ≤ f := by
        have := List.length_filter_le (fun n_ht =>
          decide (¬ t.sim_f ht n_ht play > 1 - t.similarity_epsilon))
          remaining
        simp only [List.length_cons] at h
        omega
      have ihp := ih _ hle
      simp only [trim_aux, List.cons_append, List.map_append, List.map_map]
      refine List.Perm.cons ht ?_
      have hmapfst : (remaining.filter fun n_ht =>
          decide (t.sim_f ht n_ht play > 1 - t.similarity_epsilon)).map
            ((fun pr => pr.1) ∘ fun n_ht => (n_ht, ht)) =
          remaining.filter fun n_ht =>
            decide (t.sim_f ht n_ht play > 1 - t.similarity_epsilon) := by
        simp only [Function.comp_def]
        simp
      rw [hmapfst]
      have h1 : ((t.trim_aux play f (remaining.filter fun n_ht =>
          decide (¬ t.sim_f ht n_ht play > 1 - t.similarity_epsilon))).1 ++
          ((remaining.filter fun n_ht =>
            decide (t.sim_f ht n_ht play > 1 - t.similarity_epsilon)) ++
           (t.trim_aux play f (remaining.filter fun n_ht =>
            decide (¬ t.sim_f ht n_ht play > 1 -
              t.similarity_epsilon))).2.map Prod.fst)).Perm
          ((t.trim_aux play f (remaining.filter fun n_ht =>
            decide (¬ t.sim_f ht n_ht play > 1 -
              t.similarity_epsilon))).1 ++
           ((t.trim_aux play f (remaining.filter fun n_ht =>
            decide (¬ t.sim_f ht n_ht play > 1 -
              t.similarity_epsilon))).2.map Prod.fst ++
            (remaining.filter fun n_ht =>
              decide (t.sim_f ht n_ht play > 1 - t.similarity_epsilon)))) :=
        List.Perm.append_left _ List.perm_append_comm
      refine h1.trans ?_
      rw [← List.append_assoc]
      refine (ihp.append_right _).trans ?_
      have h2 := List.filter_append_perm
        (fun n_ht => decide (t.sim_f ht n_ht play > 1 -
          t.similarity_epsilon)) remaining
      have hneg : (remaining.filter fun n_ht =>
          decide (¬ t.sim_f ht n_ht play > 1 - t.similarity_epsilon)) =
          remaining.filter fun n_ht =>
            !decide (t.sim_f ht n_ht play > 1 - t.similarity_epsilon) := by
        simp only [decide_not]
      rw [hneg]
      exact List.perm_append_comm.trans h2

theorem trim_perm (t : TactusHypothesisTracker)
    (play : OngoingPlayback) (hts : List HypothesisTracker) :
    ((t.trim_similar_hypotheses play hts).1 ++
      (t.trim_similar_hypotheses play hts).2.map Prod.fst).Perm hts :=
  trim_aux_perm t play hts.length hts (le_refl _)

theorem trim_aux_pairs (t : TactusHypothesisTracker)
    (play : OngoingPlayback) :
    ∀ fuel hts, ∀ pr ∈ (t.trim_aux play fuel hts).2,
      t.sim_f pr.2 pr.1 play > 1 - t.similarity_epsilon ∧
      pr.2 ∈ (t.trim_aux play fuel hts).1 := by
  intro fuel
  induction fuel with
  | zero =>
    intro hts pr hpr
    cases hts <;> cases hpr
  | succ f ih =>
    intro hts pr hpr
    cases hts with
    | nil => cases hpr
    | cons ht remaining =>
      simp only [trim_aux] at hpr ⊢
      rcases List.mem_append.mp hpr with hm | hm
      · rcases List.mem_map.mp hm with ⟨n_ht, hn, rfl⟩
        rcases List.mem_filter.mp hn with ⟨-, hdec⟩
        exact ⟨of_decide_eq_true hdec, List.mem_cons_self _ _⟩
      · rcases ih _ pr hm with ⟨hs, hmem⟩
        exact ⟨hs, List.mem_cons_of_mem _ hmem⟩

theorem trim_pairs (t : TactusHypothesisTracker)
    (play : OngoingPlayback) (hts : List HypothesisTracker) :
    ∀ pr ∈ (t.trim_similar_hypotheses play hts).2,
      t.sim_f pr.2 pr.1 play > 1 - t.similarity_epsilon ∧
      pr.2 ∈ (t.trim_similar_hypotheses play hts).1 :=
  trim_aux_pairs t play hts.length hts

theorem trim_aux_kept_pairwise (t : TactusHypothesisTracker)
    (play : OngoingPlayback) :
    ∀ fuel hts, (t.trim_aux play fuel hts).1.Pairwise
      (fun a b => t.sim_f a b play ≤ 1 - t.similarity_epsilon) := by
  intro fuel
  induction fuel with
  | zero =>
    intro hts
    cases hts <;> exact List.Pairwise.nil
  | succ f ih =>
    intro hts
    cases hts with
    | nil => exact List.Pairwise.nil
    | cons ht remaining =>
      simp only [trim_aux]
      refine List.pairwise_cons.mpr ⟨?_, ih _⟩
      intro b hb
      have hb1 : b ∈ remaining.filter fun n_ht =>
          decide (¬ t.sim_f ht n_ht play > 1 - t.similarity_epsilon) :=
        (trim_aux_kept_sublist t play f _).subset hb
      rcases List.mem_filter.mp hb1 with ⟨-, hdec⟩
      exact not_lt.mp (of_decide_eq_true hdec)

theorem trim_kept_pairwise (t : TactusHypothesisTracker)
    (play : OngoingPlayback) (hts : List HypothesisTracker) :
    (t.trim_similar_hypotheses play hts).1.Pairwise
      (fun a b => t.sim_f a b play ≤ 1 - t.similarity_epsilon) :=
  trim_aux_kept_pairwise t play hts.length hts

/-- The sort key of the tracker at generation index i. -/
def sort_key (hts : List HypothesisTracker) (i : ℕ) : Lex (ℚ × ℕ) :=
  toLex (-((hts.getD i defaultTracker).conf), i)

theorem hts_info_eq_map_key (hts : List HypothesisTracker) :
    hts_info hts = (List.range hts.length).map (sort_key hts) := by
  apply List.ext_getElem
  · simp [hts_info, List.enum_length]
  · intro n h1 h2
    simp only [hts_info, List.getElem_map, List.getElem_enum, List.getElem_range,
      sort_key]
    have hn : n < hts.length := by simpa [hts_info, List.enum_length] using h1
    rw [List.getD_eq_getElem hts defaultTracker hn]

theorem sort_key_snd (hts : List HypothesisTracker) (i : ℕ) :
    (ofLex (sort_key hts i)).2 = i := rfl

theorem mem_hts_info_iff (hts : List HypothesisTracker) (p : Lex (ℚ × ℕ)) :
    p ∈ hts_info hts ↔ ∃ i, i < hts.length ∧ p = sort_key hts i := by
  rw [hts_info_eq_map_key]
  simp only [List.mem_map, List.mem_range]
  constructor
  · rintro ⟨i, hi, rfl⟩; exact ⟨i, hi, rfl⟩
  · rintro ⟨i, hi, rfl⟩; exact ⟨i, hi, rfl⟩

theorem best_hts_idx_eq (t : TactusHypothesisTracker)
    (hts : List HypothesisTracker) :
    t.best_hts_idx hts =
      ((List.insertionSort (· ≤ ·) (hts_info hts)).map
        fun x => (ofLex x).2).take t.max_hypotheses := by
  rw [best_hts_idx, List.map_take]

theorem sorted_map_snd_perm (hts : List HypothesisTracker) :
    (((List.insertionSort (· ≤ ·) (hts_info hts)).map
      fun x => (ofLex x).2)).Perm (List.range hts.length) := by
  have h1 := (List.perm_insertionSort (α := Lex (ℚ × ℕ)) (· ≤ ·)
    (hts_info hts)).map fun x => (ofLex x).2
  refine h1.trans ?_
  rw [hts_info_eq_map_key, List.map_map]
  have : ((fun x : Lex (ℚ × ℕ) => (ofLex x).2) ∘ sort_key hts) = id := by
    funext i; rfl
  rw [this, List.map_id]

theorem best_hts_idx_nodup (t : TactusHypothesisTracker)
    (hts : List HypothesisTracker) : (t.best_hts_idx hts).Nodup := by
  rw [best_hts_idx_eq]
  exact (List.take_sublist _ _).nodup
    ((sorted_map_snd_perm hts).symm.nodup (List.nodup_range _))

theorem mem_best_hts_idx_lt (t : TactusHypothesisTracker)
    (hts : List HypothesisTracker) :
    ∀ i ∈ t.best_hts_idx hts, i < hts.length := by
  intro i hi
  rw [best_hts_idx_eq] at hi
  have := (List.take_sublist _ _).subset hi
  have := (sorted_map_snd_perm hts).subset this
  exact List.mem_range.mp this

theorem best_hts_idx_length (t : TactusHypothesisTracker)
    (hts : List HypothesisTracker) :
    (t.best_hts_idx hts).length = min t.max_hypotheses hts.length := by
  rw [best_hts_idx_eq, List.length_take, List.length_map,
    List.length_insertionSort, hts_info_eq_map_key, List.length_map,
    List.length_range]

theorem mem_best_hts_idx_iff (t : TactusHypothesisTracker)
    (hts : List HypothesisTracker) (i : ℕ) :
    i ∈ t.best_hts_idx hts ↔
      sort_key hts i ∈
        (List.insertionSort (· ≤ ·) (hts_info hts)).take t.max_hypotheses := by
  simp only [best_hts_idx, List.mem_map]
  constructor
  · rintro ⟨p, hp, hpi⟩
    have hmem : p ∈ hts_info hts :=
      (List.perm_insertionSort (· ≤ ·) (hts_info hts)).subset
        ((List.take_sublist _ _).subset hp)
    rcases (mem_hts_info_iff hts p).mp hmem with ⟨j, hj, rfl⟩
    rw [sort_key_snd] at hpi
    rwa [← hpi]
  · intro hp
    exact ⟨sort_key hts i, hp, sort_key_snd hts i⟩

theorem best_idx_dominates (t : TactusHypothesisTracker)
    (hts : List HypothesisTracker) :
    ∀ i ∈ t.best_hts_idx hts, ∀ j, j < hts.length →
      j ∉ t.best_hts_idx hts →
      (hts.getD j defaultTracker).conf < (hts.getD i defaultTracker).conf ∨
      ((hts.getD j defaultTracker).conf = (hts.getD i defaultTracker).conf ∧
        i < j) := by
  intro i hi j hj hnj
  have hkey_i : sort_key hts i ∈
      (List.insertionSort (· ≤ ·) (hts_info hts)).take t.max_hypotheses :=
    (mem_best_hts_idx_iff t hts i).mp hi
  have hkey_j_mem : sort_key hts j ∈
      List.insertionSort (· ≤ ·) (hts_info hts) :=
    (List.perm_insertionSort (· ≤ ·) (hts_info hts)).symm.subset
      ((mem_hts_info_iff hts _).mpr ⟨j, hj, rfl⟩)
  have hkey_j : sort_key hts j ∈
      (List.insertionSort (· ≤ ·) (hts_info hts)).drop t.max_hypotheses := by
    have hsplit : sort_key hts j ∈
        (List.insertionSort (· ≤ ·) (hts_info hts)).take t.max_hypotheses ++
        (List.insertionSort (· ≤ ·) (hts_info hts)).drop t.max_hypotheses := by
      rw [List.take_append_drop]
      exact hkey_j_mem
    rcases List.mem_append.mp hsplit with h | h
    · exact absurd ((mem_best_hts_idx_iff t hts j).mpr h) hnj
    · exact h
  have hsorted : List.Sorted (· ≤ ·)
      (List.insertionSort (· ≤ ·) (hts_info hts)) :=
    List.sorted_insertionSort _ _
  have hle : sort_key hts i ≤ sort_key hts j := by
    rw [← List.take_append_drop t.max_hypotheses
      (List.insertionSort (· ≤ ·) (hts_info hts))] at hsorted
    exact (List.pairwise_append.mp hsorted).2.2 _ hkey_i _ hkey_j
  rcases (Prod.Lex.le_iff _ _).mp hle with hlt | ⟨heq, hij⟩
  · left
    exact neg_lt_neg_iff.mp hlt
  · right
    refine ⟨(neg_inj.mp heq).symm, ?_⟩
    have hij2 : i ≤ j := hij
    rcases lt_or_eq_of_le hij2 with h | h
    · exact h
    · exact absurd (h ▸ hi) hnj

theorem enum_filter_map_sublist {α : Type} (q : ℕ → Bool) (l : List α) :
    ((l.enum.filter fun p => q p.1).map Prod.snd).Sublist l := by
  have h2 := (List.filter_sublist (p := fun p => q p.1) l.enum).map Prod.snd
  rwa [List.enum_map_snd] at h2

theorem mem_enum_filter_map {α : Type} (q : ℕ → Bool) (l : List α) (a : α) :
    a ∈ (l.enum.filter fun p => q p.1).map Prod.snd ↔
      ∃ i, ∃ h : i < l.length, q i = true ∧ l.get ⟨i, h⟩ = a := by
  simp only [List.mem_map, List.mem_filter]
  constructor
  · rintro ⟨p, ⟨hpe, hq⟩, rfl⟩
    rcases List.get?_eq_some.mp (List.mem_enum_iff_get?.mp hpe) with ⟨h, hget⟩
    exact ⟨p.1, h, hq, hget⟩
  · rintro ⟨i, h, hq, rfl⟩
    refine ⟨(i, l.get ⟨i, h⟩), ⟨?_, hq⟩, rfl⟩
    exact List.mem_enum_iff_get?.mpr (List.get?_eq_get h)

theorem split_fst (t : TactusHypothesisTracker)
    (hts : List HypothesisTracker) :
    (t.split_k_best_hypotheses hts).1 =
      (hts.enum.filter fun p =>
        decide (p.1 ∈ t.best_hts_idx hts)).map Prod.snd := rfl

theorem split_snd (t : TactusHypothesisTracker)
    (hts : List HypothesisTracker) :
    (t.split_k_best_hypotheses hts).2 =
      (hts.enum.filter fun p =>
        decide (¬ p.1 ∈ t.best_hts_idx hts)).map Prod.snd := rfl

theorem split_fst_sublist (t : TactusHypothesisTracker)
    (hts : List HypothesisTracker) :
    (t.split_k_best_hypotheses hts).1.Sublist hts := by
  rw [split_fst]
  exact enum_filter_map_sublist (fun i => decide (i ∈ t.best_hts_idx hts)) hts

theorem split_snd_sublist (t : TactusHypothesisTracker)
    (hts : List HypothesisTracker) :
    (t.split_k_best_hypotheses hts).2.Sublist hts := by
  rw [split_snd]
  exact enum_filter_map_sublist (fun i => decide (¬ i ∈ t.best_hts_idx hts)) hts

theorem split_fst_length (t : TactusHypothesisTracker)
    (hts : List HypothesisTracker) :
    (t.split_k_best_hypotheses hts).1.length =
      min t.max_hypotheses hts.length := by
  rw [split_fst, List.length_map, ← List.countP_eq_length_filter]
  have h1 : List.countP (fun p => decide (p.1 ∈ t.best_hts_idx hts)) hts.enum
      = List.countP (fun i => decide (i ∈ t.best_hts_idx hts))
          (hts.enum.map Prod.fst) := by
    rw [List.countP_map]
    rfl
  rw [h1, List.enum_map_fst, List.countP_eq_length_filter]
  have hperm : ((List.range hts.length).filter fun i =>
      decide (i ∈ t.best_hts_idx hts)).Perm (t.best_hts_idx hts) := by
    rw [List.perm_ext_iff_of_nodup ((List.nodup_range _).filter _)
      (best_hts_idx_nodup t hts)]
    intro a
    simp only [List.mem_filter, List.mem_range, decide_eq_true_eq]
    exact ⟨fun h => h.2, fun h => ⟨mem_best_hts_idx_lt t hts a h, h⟩⟩
  rw [hperm.length_eq, best_hts_idx_length]

theorem split_conf_dominates (t : TactusHypothesisTracker)
    (hts : List HypothesisTracker) :
    ∀ b ∈ (t.split_k_best_hypotheses hts).1,
      ∀ o ∈ (t.split_k_best_hypotheses hts).2, o.conf ≤ b.conf := by
  intro b hb o ho
  rw [split_fst] at hb
  rw [split_snd] at ho
  rcases (mem_enum_filter_map
    (fun i => decide (i ∈ t.best_hts_idx hts)) hts b).mp hb with ⟨i, hi, hqi, rfl⟩
  rcases (mem_enum_filter_map
    (fun j => decide (¬ j ∈ t.best_hts_idx hts)) hts o).mp ho with ⟨j, hj, hqj, rfl⟩
  have hqi1 : i ∈ t.best_hts_idx hts := of_decide_eq_true hqi
  have hqj1 : j ∉ t.best_hts_idx hts := of_decide_eq_true hqj
  have hdom := best_idx_dominates t hts i hqi1 j hj hqj1
  rw [List.getD_eq_getElem hts defaultTracker hi,
    List.getD_eq_getElem hts defaultTracker hj] at hdom
  simp only [List.get_eq_getElem]
  rcases hdom with h | ⟨h, -⟩
  · exact le_of_lt h
  · exact le_of_eq h

theorem split_fst_eq_nil_of_zero (t : TactusHypothesisTracker)
    (hts : List HypothesisTracker) (h : t.max_hypotheses = 0) :
    (t.split_k_best_hypotheses hts).1 = [] := by
  rw [split_fst]
  have hb : t.best_hts_idx hts = [] := by
    rw [best_hts_idx_eq, h, List.take_zero]
  simp [hb]

theorem updateAll_eq (t : TactusHypothesisTracker) (play : OngoingPlayback)
    (hts : List HypothesisTracker) :
    t.updateAll play hts =
      hts.map fun h => h.update play t.eval_f t.corr_f := rfl

theorem step_eq (t : TactusHypothesisTracker) (play : OngoingPlayback)
    (pop : List HypothesisTracker) :
    t.step play pop =
      (t.split_k_best_hypotheses
        ((t.trim_similar_hypotheses play
          (t.updateAll play (pop ++ t.generate_new_hypothesis play))).1)).1 :=
  rfl

theorem mem_step (t : TactusHypothesisTracker) (play : OngoingPlayback)
    (pop : List HypothesisTracker) (ht : HypothesisTracker)
    (h : ht ∈ t.step play pop) :
    ∃ ht0 ∈ pop ++ t.generate_new_hypothesis play,
      ht = ht0.update play t.eval_f t.corr_f := by
  rw [step_eq] at h
  have h1 := (split_fst_sublist t _).subset h
  have h2 := (trim_kept_sublist t play _).subset h1
  rw [updateAll_eq] at h2
  rcases List.mem_map.mp h2 with ⟨ht0, hm, rfl⟩
  exact ⟨ht0, hm, rfl⟩

theorem loop_zero (t : TactusHypothesisTracker) (play : OngoingPlayback)
    (hts : List HypothesisTracker) : t.loop 0 play hts = hts := rfl

theorem loop_succ_of_lt (t : TactusHypothesisTracker) (os : List ℚ)
    (d fuel : ℕ) (hts : List HypothesisTracker) (h : d < os.length) :
    t.loop (fuel + 1) ⟨os, d⟩ hts =
      t.loop fuel ⟨os, d + 1⟩ (t.step ⟨os, d + 1⟩ hts) := by
  have hadv : (OngoingPlayback.mk os d).advance = some ⟨os, d + 1⟩ := by
    simp [OngoingPlayback.advance, h]
  rw [loop, hadv]

theorem popAt_zero (t : TactusHypothesisTracker) (os : List ℚ) :
    t.popAt os 0 = [] := rfl

theorem popAt_succ_of_lt (t : TactusHypothesisTracker) (os : List ℚ)
    (n : ℕ) (h : n < os.length) :
    t.popAt os (n + 1) = t.step ⟨os, n + 1⟩ (t.popAt os n) := by
  rw [popAt, if_pos h]

theorem popAt_succ_of_ge (t : TactusHypothesisTracker) (os : List ℚ)
    (n : ℕ) (h : ¬ n < os.length) :
    t.popAt os (n + 1) = t.popAt os n := by
  rw [popAt, if_neg h]

theorem loop_popAt (t : TactusHypothesisTracker) (os : List ℚ) :
    ∀ fuel d, d + fuel = os.length →
      t.loop fuel ⟨os, d⟩ (t.popAt os d) = t.popAt os os.length := by
  intro fuel
  induction fuel with
  | zero =>
    intro d hd
    have hdl : d = os.length := by omega
    rw [hdl, loop_zero]
  | succ n ihn =>
    intro d hd
    have hlt : d < os.length := by omega
    rw [loop_succ_of_lt t os d n _ hlt, ← popAt_succ_of_lt t os d hlt]
    exact ihn (d + 1) (by omega)

theorem run_eq_popAt (t : TactusHypothesisTracker) (os : List ℚ) :
    t.run os = (t.popAt os os.length).map fun ht => (ht.name, ht) := by
  have h := loop_popAt t os os.length 0 (by omega)
  rw [popAt_zero] at h
  show (t.loop os.length ⟨os, 0⟩ []).map _ = _
  rw [h]

theorem filterMap_if_eq_filter_map {α β : Type} (p : α → Prop)
    [DecidablePred p] (f : α → β) (l : List α) :
    (l.filterMap fun a => if p a then some (f a) else none) =
      (l.filter fun a => decide (p a)).map f := by
  induction l with
  | nil => rfl
  | cons a l ih =>
    by_cases h : p a
    · simp [List.filterMap_cons, List.filter_cons, h, ih]
    · simp [List.filterMap_cons, List.filter_cons, h, ih]

theorem generate_eq_filter_map (t : TactusHypothesisTracker)
    (play : OngoingPlayback) :
    t.generate_new_hypothesis play =
      ((List.range (play.discovered_index - 1)).filter fun k =>
        decide (t.min_delta ≤
            play.onset_times.getD (play.discovered_index - 1) 0 -
              play.onset_times.getD k 0 ∧
          play.onset_times.getD (play.discovered_index - 1) 0 -
              play.onset_times.getD k 0 ≤ t.max_delta)).map fun k =>
        HypothesisTracker.fromIndex k (play.discovered_index - 1)
          play.onset_times := by
  exact filterMap_if_eq_filter_map _ _ _

theorem mem_generate (t : TactusHypothesisTracker) (play : OngoingPlayback)
    (ht : HypothesisTracker) :
    ht ∈ t.generate_new_hypothesis play ↔
      ∃ k, k < play.discovered_index - 1 ∧
        t.min_delta ≤ play.onset_times.getD (play.discovered_index - 1) 0 -
          play.onset_times.getD k 0 ∧
        play.onset_times.getD (play.discovered_index - 1) 0 -
          play.onset_times.getD k 0 ≤ t.max_delta ∧
        ht = HypothesisTracker.fromIndex k (play.discovered_index - 1)
          play.onset_times := by
  rw [generate_eq_filter_map]
  simp only [List.mem_map, List.mem_filter, List.mem_range,
    decide_eq_true_eq]
  constructor
  · rintro ⟨k, ⟨hk, hd1, hd2⟩, rfl⟩
    exact ⟨k, hk, hd1, hd2, rfl⟩
  · rintro ⟨k, hk, hd1, hd2, rfl⟩
    exact ⟨k, ⟨hk, hd1, hd2⟩, rfl⟩

theorem generate_pairwise (t : TactusHypothesisTracker)
    (play : OngoingPlayback) :
    (t.generate_new_hypothesis play).Pairwise
      (fun a b => a.start_idx < b.start_idx) := by
  rw [generate_eq_filter_map, List.pairwise_map]
  exact (List.pairwise_lt_range _).filter _

theorem generate_eq_nil_of_min_gt_max (t : TactusHypothesisTracker)
    (play : OngoingPlayback) (h : t.max_delta < t.min_delta) :
    t.generate_new_hypothesis play = [] := by
  rw [generate_eq_filter_map]
  have hf : ((List.range (play.discovered_index - 1)).filter fun k =>
      decide (t.min_delta ≤
          play.onset_times.getD (play.discovered_index - 1) 0 -
            play.onset_times.getD k 0 ∧
        play.onset_times.getD (play.discovered_index - 1) 0 -
            play.onset_times.getD k 0 ≤ t.max_delta)) = [] := by
    rw [List.filter_eq_nil_iff]
    intro k hk
    simp only [decide_eq_true_eq, not_and, not_le]
    intro h1
    calc play.onset_times.getD (play.discovered_index - 1) 0 -
          play.onset_times.getD k 0 ≥ t.min_delta := h1
      _ > t.max_delta := h
  rw [hf, List.map_nil]

theorem generate_eq_nil_of_le_one (t : TactusHypothesisTracker)
    (play : OngoingPlayback) (h : play.discovered_index ≤ 1) :
    t.generate_new_hypothesis play = [] := by
  rw [generate_eq_filter_map]
  have hz : play.discovered_index - 1 = 0 := by omega
  rw [hz]
  rfl

theorem step_nil (t : TactusHypothesisTracker) (play : OngoingPlayback)
    (hgen : t.generate_new_hypothesis play = []) :
    t.step play [] = [] := by
  rw [step_eq, hgen]
  have h1 : t.updateAll play ([] ++ []) = [] := rfl
  rw [h1]
  have h2 : t.trim_similar_hypotheses play ([] : List HypothesisTracker) =
      ([], []) := rfl
  rw [h2]
  rfl

theorem popAt_eq_nil_of_min_gt_max (t : TactusHypothesisTracker)
    (os : List ℚ) (h : t.max_delta < t.min_delta) :
    ∀ n, t.popAt os n = [] := by
  intro n
  induction n with
  | zero => rfl
  | succ m ih =>
    by_cases hm : m < os.length
    · rw [popAt_succ_of_lt t os m hm, ih, step_nil]
      exact generate_eq_nil_of_min_gt_max t _ h
    · rw [popAt_succ_of_ge t os m hm, ih]

theorem popAt_eq_nil_of_short (t : TactusHypothesisTracker)
    (os : List ℚ) (h : os.length < 2) :
    ∀ n, t.popAt os n = [] := by
  intro n
  induction n with
  | zero => rfl
  | succ m ih =>
    by_cases hm : m < os.length
    · have hm0 : m = 0 := by omega
      subst hm0
      rw [popAt_succ_of_lt t os 0 hm, ih, step_nil]
      exact generate_eq_nil_of_le_one t _ (by simp)
    · rw [popAt_succ_of_ge t os m hm, ih]

theorem step_eq_nil_of_zero_max (t : TactusHypothesisTracker)
    (play : OngoingPlayback) (pop : List HypothesisTracker)
    (h : t.max_hypotheses = 0) : t.step play pop = [] := by
  rw [step_eq]
  exact split_fst_eq_nil_of_zero t _ h

theorem popAt_eq_nil_of_zero_max (t : TactusHypothesisTracker)
    (os : List ℚ) (h : t.max_hypotheses = 0) :
    ∀ n, t.popAt os n = [] := by
  intro n
  induction n with
  | zero => rfl
  | succ m ih =>
    by_cases hm : m < os.length
    · rw [popAt_succ_of_lt t os m hm]
      exact step_eq_nil_of_zero_max t _ _ h
    · rw [popAt_succ_of_ge t os m hm, ih]

end TactusHypothesisTracker

/-- Well-formedness of a tracker's histories: equal lengths, strictly
increasing discovered indices, and the current hypothesis equal to the
latest correction's new hypothesis (or beta if none). -/
def TrackerWF (ht : HypothesisTracker) : Prop :=
  ht.corr.length = ht.confs.length ∧
  (ht.corr.map Prod.fst).Pairwise (· < ·) ∧
  (ht.confs.map Prod.fst).Pairwise (· < ·) ∧
  ht.htuple =
    ((ht.corr.getLast?).map fun pr => pr.2.new_hypothesis).getD ht.beta

/-- All discovered indices recorded in the histories are at most d. -/
def TrackerBounded (d : ℕ) (ht : HypothesisTracker) : Prop :=
  (∀ x ∈ ht.corr, x.1 ≤ d) ∧ (∀ x ∈ ht.confs, x.1 ≤ d)

theorem fromIndex_WF (s e : ℕ) (os : List ℚ) :
    TrackerWF (HypothesisTracker.fromIndex s e os) := by
  refine ⟨rfl, ?_, ?_, rfl⟩ <;> exact List.Pairwise.nil

theorem fromIndex_Bounded (d s e : ℕ) (os : List ℚ) :
    TrackerBounded d (HypothesisTracker.fromIndex s e os) := by
  constructor <;> intro x hx <;> cases hx

theorem update_preserves_WF (ht : HypothesisTracker)
    (play : OngoingPlayback) (d : ℕ)
    (e : HypothesisTracker → OngoingPlayback → ℚ)
    (c : HypothesisTracker → OngoingPlayback → HypothesisCorrection)
    (hwf : TrackerWF ht) (hb : TrackerBounded d ht)
    (hd : d < play.discovered_index) :
    TrackerWF (ht.update play e c) ∧
    TrackerBounded play.discovered_index (ht.update play e c) := by
  rcases hwf with ⟨hlen, hc1, hc2, -⟩
  rcases hb with ⟨hb1, hb2⟩
  constructor
  · refine ⟨?_, ?_, ?_, ?_⟩
    · rw [HypothesisTracker.update_corr, HypothesisTracker.update_confs]
      simp [hlen]
    · rw [HypothesisTracker.update_corr, List.map_append]
      rw [List.pairwise_append]
      refine ⟨hc1, by simp, ?_⟩
      intro a ha b hbm
      simp only [List.map_cons, List.map_nil, List.mem_singleton] at hbm
      subst hbm
      rcases List.mem_map.mp ha with ⟨x, hx, rfl⟩
      exact lt_of_le_of_lt (hb1 x hx) hd
    · rw [HypothesisTracker.update_confs, List.map_append]
      rw [List.pairwise_append]
      refine ⟨hc2, by simp, ?_⟩
      intro a ha b hbm
      simp only [List.map_cons, List.map_nil, List.mem_singleton] at hbm
      subst hbm
      rcases List.mem_map.mp ha with ⟨x, hx, rfl⟩
      exact lt_of_le_of_lt (hb2 x hx) hd
    · rw [HypothesisTracker.update_htuple, HypothesisTracker.update_corr,
        List.getLast?_concat]
      rfl
  · constructor
    · rw [HypothesisTracker.update_corr]
      intro x hx
      rcases List.mem_append.mp hx with h | h
      · exact le_of_lt (lt_of_le_of_lt (hb1 x h) hd)
      · simp only [List.mem_singleton] at h
        subst h
        exact le_refl _
    · rw [HypothesisTracker.update_confs]
      intro x hx
      rcases List.mem_append.mp hx with h | h
      · exact le_of_lt (lt_of_le_of_lt (hb2 x h) hd)
      · simp only [List.mem_singleton] at h
        subst h
        exact le_refl _

/-- Invariant of the population after n engine steps: every tracker is
well-formed, has history indices at most n, a valid origin with
start index below end index, was created at a step no later than n, and
has a non-empty confidence history. -/
def PopInv (n : ℕ) (pop : List HypothesisTracker) : Prop :=
  ∀ ht ∈ pop, TrackerWF ht ∧ TrackerBounded n ht ∧
    ht.start_idx < ht.end_idx ∧ ht.end_idx + 1 ≤ n ∧ ht.confs ≠ []

namespace TactusHypothesisTracker

theorem step_preserves_inv (t : TactusHypothesisTracker) (os : List ℚ)
    (n : ℕ) (pop : List HypothesisTracker) (hinv : PopInv n pop) :
    PopInv (n + 1) (t.step ⟨os, n + 1⟩ pop) := by
  intro ht hht
  rcases mem_step t _ pop ht hht with ⟨ht0, hm, rfl⟩
  have hconfs : (ht0.update ⟨os, n + 1⟩ t.eval_f t.corr_f).confs ≠ [] := by
    rw [HypothesisTracker.update_confs]
    simp
  rcases List.mem_append.mp hm with h0 | h0
  · rcases hinv ht0 h0 with ⟨hwf, hb, hse, hen, -⟩
    have hlt : n < (OngoingPlayback.mk os (n + 1)).discovered_index := by
      simp
    rcases update_preserves_WF ht0 ⟨os, n + 1⟩ n t.eval_f t.corr_f
      hwf hb hlt with ⟨hwf2, hb2⟩
    refine ⟨hwf2, hb2, ?_, ?_, hconfs⟩
    · rw [HypothesisTracker.update_start_idx, HypothesisTracker.update_end_idx]
      exact hse
    · rw [HypothesisTracker.update_end_idx]
      omega
  · rcases (mem_generate t _ ht0).mp h0 with ⟨k, hk, -, -, rfl⟩
    have hk2 : k < n := by simpa using hk
    have hlt : n < (OngoingPlayback.mk os (n + 1)).discovered_index := by
      simp
    rcases update_preserves_WF _ ⟨os, n + 1⟩ n t.eval_f t.corr_f
      (fromIndex_WF _ _ _) (fromIndex_Bounded n _ _ _) hlt with ⟨hwf2, hb2⟩
    refine ⟨hwf2, hb2, ?_, ?_, hconfs⟩
    · rw [HypothesisTracker.update_start_idx, HypothesisTracker.update_end_idx]
      exact hk
    · rw [HypothesisTracker.update_end_idx]
      show (OngoingPlayback.mk os (n + 1)).discovered_index - 1 + 1 ≤ n + 1
      simp

theorem popAt_inv (t : TactusHypothesisTracker) (os : List ℚ) :
    ∀ n, PopInv n (t.popAt os n) := by
  intro n
  induction n with
  | zero =>
    intro ht h
    cases h
  | succ m ih =>
    by_cases hm : m < os.length
    · rw [popAt_succ_of_lt t os m hm]
      exact step_preserves_inv t os m _ ih
    · rw [popAt_succ_of_ge t os m hm]
      intro ht h
      rcases ih ht h with ⟨hwf, hb, hse, hen, hc⟩
      rcases hb with ⟨hb1, hb2⟩
      refine ⟨hwf, ⟨?_, ?_⟩, hse, by omega, hc⟩
      · intro x hx
        exact le_trans (hb1 x hx) (by omega)
      · intro x hx
        exact le_trans (hb2 x hx) (by omega)

theorem step_names (t : TactusHypothesisTracker) (os : List ℚ) (n : ℕ)
    (pop : List HypothesisTracker) :
    ∀ ht ∈ t.step ⟨os, n + 1⟩ pop,
      ht.name ∈ pop.map HypothesisTracker.name ∨ ht.name.2 = n := by
  intro ht hht
  rcases mem_step t _ pop ht hht with ⟨ht0, hm, rfl⟩
  rw [HypothesisTracker.update_name]
  rcases List.mem_append.mp hm with h0 | h0
  · exact Or.inl (List.mem_map.mpr ⟨ht0, h0, rfl⟩)
  · rcases (mem_generate t _ ht0).mp h0 with ⟨k, -, -, -, rfl⟩
    right
    show (OngoingPlayback.mk os (n + 1)).discovered_index - 1 = n
    simp

theorem absent_stays_absent (t : TactusHypothesisTracker) (os : List ℚ)
    (nm : ℕ × ℕ) (s : ℕ) (hend : nm.2 + 1 ≤ s)
    (habs : nm ∉ (t.popAt os s).map HypothesisTracker.name) :
    ∀ u, s ≤ u → nm ∉ (t.popAt os u).map HypothesisTracker.name := by
  intro u hu
  induction u, hu using Nat.le_induction with
  | base => exact habs
  | succ u hsu ih =>
    by_cases hul : u < os.length
    · rw [popAt_succ_of_lt t os u hul]
      intro hmem
      rcases List.mem_map.mp hmem with ⟨ht, hht, rfl⟩
      rcases step_names t os u (t.popAt os u) ht hht with h | h
      · exact ih h
      · omega
    · rw [popAt_succ_of_ge t os u hul]
      exact ih

theorem kept_confs_nonempty (t : TactusHypothesisTracker)
    (play : OngoingPlayback) (pop : List HypothesisTracker) :
    ∀ ht ∈ (t.trim_similar_hypotheses play
      (t.updateAll play (pop ++ t.generate_new_hypothesis play))).1,
      ht.confs ≠ [] := by
  intro ht h
  have h2 := (trim_kept_sublist t play _).subset h
  rw [updateAll_eq] at h2
  rcases List.mem_map.mp h2 with ⟨ht0, -, rfl⟩
  rw [HypothesisTracker.update_confs]
  simp

end TactusHypothesisTracker

/-- A configuration with an empty period window, for exercising the
min_delta greater than max_delta behaviour. -/
def badCfg : TactusHypothesisTracker :=
  { sampleCfg with min_delta := 5, max_delta := 3 }

/-- A configuration that keeps no hypotheses at selection. -/
def zeroCfg : TactusHypothesisTracker :=
  { sampleCfg with max_hypotheses := 0 }

/-- A configuration keeping a single best hypothesis. -/
def oneCfg : TactusHypothesisTracker :=
  { sampleCfg with max_hypotheses := 1 }

/-- A configuration whose similarity function always reports identity. -/
def allSimCfg : TactusHypothesisTracker :=
  { sampleCfg with sim_f := fun _ _ _ => 1 }

/-- A permissive configuration accepting any period in [0, 1000]. -/
def simpleCfg : TactusHypothesisTracker :=
  { sampleCfg with min_delta := 0, max_delta := 1000 }

/-- A tracker with latest confidence 0, for selection witnesses. -/
def trLow : HypothesisTracker :=
  { HypothesisTracker.fromIndex 0 1 [0, 500] with confs := [(1, 0)] }

/-- A tracker with latest confidence 5, for selection witnesses. -/
def trHigh : HypothesisTracker :=
  { HypothesisTracker.fromIndex 0 1 [0, 500] with confs := [(1, 5)] }

/-- C1: at every engine step, with end_index the newly discovered index
minus one, the generation step yields a tracker with origin (k, end_index)
exactly for those start indices k below end_index whose period
onset_times[end_index] - onset_times[k] lies within [min_delta, max_delta];
the generated trackers are in strictly increasing k order and the step
appends them to the end of the existing population before updating; and
with min_delta greater than max_delta nothing is generated and every run
returns the empty mapping. -/
theorem generation_step_spec (t : TactusHypothesisTracker)
    (play : OngoingPlayback) (pop : List HypothesisTracker) (os : List ℚ) :
    (∀ ht, ht ∈ t.generate_new_hypothesis play ↔
      ∃ k, k < play.discovered_index - 1 ∧
        t.min_delta ≤ play.onset_times.getD (play.discovered_index - 1) 0 -
          play.onset_times.getD k 0 ∧
        play.onset_times.getD (play.discovered_index - 1) 0 -
          play.onset_times.getD k 0 ≤ t.max_delta ∧
        ht = HypothesisTracker.fromIndex k (play.discovered_index - 1)
          play.onset_times) ∧
    (t.generate_new_hypothesis play).Pairwise
      (fun a b => a.start_idx < b.start_idx) ∧
    t.step play pop =
      (t.split_k_best_hypotheses
        ((t.trim_similar_hypotheses play
          (t.updateAll play (pop ++ t.generate_new_hypothesis play))).1)).1 ∧
    (t.max_delta < t.min_delta →
      t.generate_new_hypothesis play = [] ∧ t.run os = []) := by
  refine ⟨fun ht => TactusHypothesisTracker.mem_generate t play ht,
    TactusHypothesisTracker.generate_pairwise t play, rfl,
    fun h => ⟨TactusHypothesisTracker.generate_eq_nil_of_min_gt_max t play h,
      ?_⟩⟩
  rw [TactusHypothesisTracker.run_eq_popAt,
    TactusHypothesisTracker.popAt_eq_nil_of_min_gt_max t os h]
  rfl

/-- Witness for C1: with min_delta 5 and max_delta 3 the generation step
produces nothing and the run on three onsets returns the empty mapping. -/
theorem generation_step_spec_witness :
    badCfg.generate_new_hypothesis ⟨[0, 500, 1000], 3⟩ = [] ∧
    badCfg.run [0, 500, 1000] = [] :=
  (generation_step_spec badCfg ⟨[0, 500, 1000], 3⟩ [] [0, 500, 1000]).2.2.2
    (by norm_num [badCfg, sampleCfg])

open TactusHypothesisTracker in
/-- C2: the selection step retains exactly min(max_hypotheses, n) trackers
out of a kept population of size n; retained and dropped trackers each
preserve their original generation order; no retained tracker has latest
confidence strictly below any dropped tracker's; the retained generation
indices are exactly the first max_hypotheses entries of the key list
sorted by descending confidence with ties broken by generation order (so
every retained index beats every dropped index in that order); and with
max_hypotheses = 0 the selection keeps nothing and every population of a
run is empty. -/
theorem selection_step_spec (t : TactusHypothesisTracker)
    (hts : List HypothesisTracker) (os : List ℚ) :
    (t.split_k_best_hypotheses hts).1.length =
      min t.max_hypotheses hts.length ∧
    (t.split_k_best_hypotheses hts).1.Sublist hts ∧
    (t.split_k_best_hypotheses hts).2.Sublist hts ∧
    (∀ b ∈ (t.split_k_best_hypotheses hts).1,
      ∀ o ∈ (t.split_k_best_hypotheses hts).2, ¬ b.conf < o.conf) ∧
    (∀ i ∈ t.best_hts_idx hts, ∀ j, j < hts.length →
      j ∉ t.best_hts_idx hts →
      (hts.getD j defaultTracker).conf < (hts.getD i defaultTracker).conf ∨
      ((hts.getD j defaultTracker).conf =
        (hts.getD i defaultTracker).conf ∧ i < j)) ∧
    (t.split_k_best_hypotheses hts).1 =
      (hts.enum.filter fun p =>
        decide (p.1 ∈ t.best_hts_idx hts)).map Prod.snd ∧
    (t.max_hypotheses = 0 →
      (t.split_k_best_hypotheses hts).1 = [] ∧ ∀ n, t.popAt os n = []) := by
  refine ⟨split_fst_length t hts, split_fst_sublist t hts,
    split_snd_sublist t hts, ?_, best_idx_dominates t hts, split_fst t hts,
    fun h => ⟨split_fst_eq_nil_of_zero t hts h,
      popAt_eq_nil_of_zero_max t os h⟩⟩
  intro b hb o ho
  exact not_lt.mpr (split_conf_dominates t hts b hb o ho)

open TactusHypothesisTracker in
/-- Witness for C2: with max_hypotheses 0 nothing is retained, and with
max_hypotheses 1 on a low-confidence tracker before a high-confidence one
the retained index 1 strictly beats the dropped index 0. -/
theorem selection_step_spec_witness :
    (zeroCfg.split_k_best_hypotheses [trLow, trHigh]).1 = [] ∧
    (([trLow, trHigh].getD 0 defaultTracker).conf <
        ([trLow, trHigh].getD 1 defaultTracker).conf ∨
      (([trLow, trHigh].getD 0 defaultTracker).conf =
        ([trLow, trHigh].getD 1 defaultTracker).conf ∧ 1 < 0)) := by
  constructor
  · exact ((selection_step_spec zeroCfg [trLow, trHigh] []).2.2.2.2.2.2
      rfl).1
  · have hcond : ¬ ((0 : Lex (ℚ × ℕ)) ≤ toLex (-5, 1)) := by
      rw [show (0 : Lex (ℚ × ℕ)) = toLex ((0 : ℚ), (0 : ℕ)) from rfl,
        Prod.Lex.le_iff]
      norm_num
    refine (selection_step_spec oneCfg [trLow, trHigh] []).2.2.2.2.1 1 ?_ 0
      (by norm_num) ?_
    · show 1 ∈ oneCfg.best_hts_idx [trLow, trHigh]
      norm_num [best_hts_idx, hts_info, oneCfg, sampleCfg, trLow, trHigh,
        HypothesisTracker.conf, HypothesisTracker.conf?,
        HypothesisTracker.fromIndex, List.insertionSort, List.orderedInsert,
        List.enum, List.enumFrom, hcond]
    · show ¬ 0 ∈ oneCfg.best_hts_idx [trLow, trHigh]
      norm_num [best_hts_idx, hts_info, oneCfg, sampleCfg, trLow, trHigh,
        HypothesisTracker.conf, HypothesisTracker.conf?,
        HypothesisTracker.fromIndex, List.insertionSort, List.orderedInsert,
        List.enum, List.enumFrom, hcond]

open TactusHypothesisTracker in
/-- C3: the trimming step realizes the greedy representative scheme: kept
trackers form a subsequence of the population (preserving order), kept
trackers together with the trimmed ones partition the population, every
trimmed tracker strictly exceeds the similarity threshold against its
recorded representative, which is itself kept, and any two kept trackers
in kept order are within the threshold of each other. -/
theorem trimming_step_spec (t : TactusHypothesisTracker)
    (play : OngoingPlayback) (hts : List HypothesisTracker) :
    (t.trim_similar_hypotheses play hts).1.Sublist hts ∧
    ((t.trim_similar_hypotheses play hts).1 ++
      (t.trim_similar_hypotheses play hts).2.map Prod.fst).Perm hts ∧
    (∀ pr ∈ (t.trim_similar_hypotheses play hts).2,
      t.sim_f pr.2 pr.1 play > 1 - t.similarity_epsilon ∧
      pr.2 ∈ (t.trim_similar_hypotheses play hts).1) ∧
    (t.trim_similar_hypotheses play hts).1.Pairwise
      (fun a b => t.sim_f a b play ≤ 1 - t.similarity_epsilon) :=
  ⟨trim_kept_sublist t play hts, trim_perm t play hts,
    trim_pairs t play hts, trim_kept_pairwise t play hts⟩

/-- Witness for C3: with an always-1 similarity function the second of two
trackers is trimmed as redundant with the first, which is kept. -/
theorem trimming_step_spec_witness :
    allSimCfg.sim_f trLow trHigh ⟨[0], 1⟩ >
      1 - allSimCfg.similarity_epsilon ∧
    trLow ∈ (allSimCfg.trim_similar_hypotheses ⟨[0], 1⟩
      [trLow, trHigh]).1 := by
  have hmem : (trHigh, trLow) ∈
      (allSimCfg.trim_similar_hypotheses ⟨[0], 1⟩ [trLow, trHigh]).2 := by
    norm_num [TactusHypothesisTracker.trim_similar_hypotheses,
      TactusHypothesisTracker.trim_aux, allSimCfg, sampleCfg]
  exact (trimming_step_spec allSimCfg ⟨[0], 1⟩ [trLow, trHigh]).2.2.1
    (trHigh, trLow) hmem

/-- C4: update first records the correction obtained from corr_f at the
current discovered index, sets the current hypothesis to the corrected
pair, and only then computes the confidence with eval_f on the
already-corrected tracker, recording it at the same discovered index;
both histories grow by exactly one entry per call. -/
theorem tracker_update_spec (ht : HypothesisTracker)
    (play : OngoingPlayback)
    (e : HypothesisTracker → OngoingPlayback → ℚ)
    (c : HypothesisTracker → OngoingPlayback → HypothesisCorrection) :
    (ht.update play e c).corr =
      ht.corr ++ [(play.discovered_index, c ht play)] ∧
    (ht.update play e c).htuple = (c ht play).new_hypothesis ∧
    (ht.update play e c).confs =
      ht.confs ++ [(play.discovered_index,
        e { ht with
              corr := ht.corr ++ [(play.discovered_index, c ht play)]
              htuple := (c ht play).new_hypothesis } play)] ∧
    (ht.update play e c).corr.length = ht.corr.length + 1 ∧
    (ht.update play e c).confs.length = ht.confs.length + 1 := by
  refine ⟨rfl, rfl, rfl, ?_, ?_⟩ <;> simp [HypothesisTracker.update]

open TactusHypothesisTracker in
/-- C5: every tracker in every intermediate population of a run has
correction and confidence histories of equal length, strictly increasing
discovered indices in both, and a current hypothesis equal to the latest
correction's proposed hypothesis, or beta if no correction exists. -/
theorem tracker_histories_invariant (t : TactusHypothesisTracker)
    (os : List ℚ) (n : ℕ) :
    ∀ ht ∈ t.popAt os n,
      ht.corr.length = ht.confs.length ∧
      (ht.corr.map Prod.fst).Pairwise (· < ·) ∧
      (ht.confs.map Prod.fst).Pairwise (· < ·) ∧
      ht.htuple =
        ((ht.corr.getLast?).map fun pr =>
          pr.2.new_hypothesis).getD ht.beta := by
  intro ht h
  exact (popAt_inv t os n ht h).1

/-- The surviving tracker of a two-onset run with a permissive
configuration, written out explicitly for use in witnesses. -/
def htx : HypothesisTracker :=
  { start_idx := 0, end_idx := 1, onset_times := [0, 1], beta := (0, 1),
    htuple := (0, 1), corr := [(2, { new_hypothesis := (0, 1) })],
    confs := [(2, 1)] }

/-- Witness for C5: the surviving tracker of the two-onset run satisfies
the history invariants. -/
theorem tracker_histories_invariant_witness :
    htx ∈ simpleCfg.popAt [0, 1] 2 ∧
    (htx.corr.length = htx.confs.length ∧
      (htx.corr.map Prod.fst).Pairwise (· < ·) ∧
      (htx.confs.map Prod.fst).Pairwise (· < ·) ∧
      htx.htuple =
        ((htx.corr.getLast?).map fun pr =>
          pr.2.new_hypothesis).getD htx.beta) := by
  have hmem : htx ∈ simpleCfg.popAt [0, 1] 2 := by
    norm_num [htx, TactusHypothesisTracker.popAt,
      TactusHypothesisTracker.step,
      TactusHypothesisTracker.generate_new_hypothesis,
      TactusHypothesisTracker.updateAll, HypothesisTracker.update,
      HypothesisTracker.fromIndex,
      TactusHypothesisTracker.trim_similar_hypotheses,
      TactusHypothesisTracker.trim_aux,
      TactusHypothesisTracker.split_k_best_hypotheses,
      TactusHypothesisTracker.best_hts_idx,
      TactusHypothesisTracker.hts_info, HypothesisTracker.conf,
      HypothesisTracker.conf?, List.insertionSort, List.orderedInsert,
      simpleCfg, sampleCfg, constEval, idCorr, constSim, List.range,
      List.range.loop, List.filterMap]
  exact ⟨hmem, tracker_histories_invariant simpleCfg [0, 1] 2 htx hmem⟩

open TactusHypothesisTracker in
/-- C6: the returned mapping of a run is keyed exactly by the surviving
trackers' origin index pairs: the mapping is the final population keyed by
name, every key (k, end_index) satisfies k < end_index, and the tracker
stored under a key has that key as its name. -/
theorem run_keys_spec (t : TactusHypothesisTracker) (os : List ℚ) :
    t.run os = (t.popAt os os.length).map (fun ht => (ht.name, ht)) ∧
    ∀ p ∈ t.run os, p.1.1 < p.1.2 ∧ p.2.name = p.1 := by
  refine ⟨run_eq_popAt t os, ?_⟩
  intro p hp
  rw [run_eq_popAt] at hp
  rcases List.mem_map.mp hp with ⟨ht, hm, rfl⟩
  exact ⟨(popAt_inv t os os.length ht hm).2.2.1, rfl⟩

/-- Witness for C6: the key of the surviving tracker of the two-onset run
is the pair (0, 1), with 0 below 1, and the stored tracker is named by
that key. -/
theorem run_keys_spec_witness :
    0 < 1 ∧ htx.name = (0, 1) := by
  have hmem : ((0, 1), htx) ∈ simpleCfg.run [0, 1] := by
    rw [TactusHypothesisTracker.run_eq_popAt]
    norm_num [htx, TactusHypothesisTracker.popAt,
      TactusHypothesisTracker.step,
      TactusHypothesisTracker.generate_new_hypothesis,
      TactusHypothesisTracker.updateAll, HypothesisTracker.update,
      HypothesisTracker.fromIndex, HypothesisTracker.name,
      TactusHypothesisTracker.trim_similar_hypotheses,
      TactusHypothesisTracker.trim_aux,
      TactusHypothesisTracker.split_k_best_hypotheses,
      TactusHypothesisTracker.best_hts_idx,
      TactusHypothesisTracker.hts_info, HypothesisTracker.conf,
      HypothesisTracker.conf?, List.insertionSort, List.orderedInsert,
      simpleCfg, sampleCfg, constEval, idCorr, constSim, List.range,
      List.range.loop, List.filterMap]
  exact (run_keys_spec simpleCfg [0, 1]).2 ((0, 1), htx) hmem

open TactusHypothesisTracker in
/-- C7: a run on an onset sequence with fewer than two onsets generates no
hypotheses and returns the empty mapping, and the generation step yields
nothing whenever at most one onset has been discovered. -/
theorem short_sequence_spec (t : TactusHypothesisTracker) (os : List ℚ)
    (h : os.length < 2) :
    t.run os = [] ∧
    ∀ play : OngoingPlayback, play.discovered_index ≤ 1 →
      t.generate_new_hypothesis play = [] := by
  constructor
  · rw [run_eq_popAt, popAt_eq_nil_of_short t os h]
    rfl
  · exact fun play hp => generate_eq_nil_of_le_one t play hp

/-- Witness for C7: runs on an empty and on a one-onset sequence both
return the empty mapping. -/
theorem short_sequence_spec_witness :
    sampleCfg.run [] = [] ∧ sampleCfg.run [42] = [] :=
  ⟨(short_sequence_spec sampleCfg [] (by norm_num)).1,
   (short_sequence_spec sampleCfg [42] (by norm_num)).1⟩

/-- C8: the engine is deterministic: two runs with equal configurations
and equal onset sequences return equal mappings, including equal
correction and confidence histories for every surviving tracker. -/
theorem run_deterministic (t1 t2 : TactusHypothesisTracker)
    (os1 os2 : List ℚ) (h1 : t1 = t2) (h2 : os1 = os2) :
    t1.run os1 = t2.run os2 ∧
    (t1.run os1).map (fun p => (p.2.corr, p.2.confs)) =
      (t2.run os2).map (fun p => (p.2.corr, p.2.confs)) := by
  subst h1
  subst h2
  exact ⟨rfl, rfl⟩

/-- Witness for C8: two runs of the sample configuration on the scenario
onsets coincide, histories included. -/
theorem run_deterministic_witness :
    sampleCfg.run [0, 500, 1000] = sampleCfg.run [0, 500, 1000] ∧
    (sampleCfg.run [0, 500, 1000]).map (fun p => (p.2.corr, p.2.confs)) =
      (sampleCfg.run [0, 500, 1000]).map
        (fun p => (p.2.corr, p.2.confs)) :=
  run_deterministic sampleCfg sampleCfg [0, 500, 1000] [0, 500, 1000]
    rfl rfl

open TactusHypothesisTracker in
/-- C9: a tracker that is out of the population at some step at or after
its creation step never re-enters the population at any later step, and is
absent from the final returned mapping; trimmed and dropped-by-selection
are absorbing. -/
theorem dropped_tracker_absorbing (t : TactusHypothesisTracker)
    (os : List ℚ) (nm : ℕ × ℕ) (s : ℕ) (hend : nm.2 + 1 ≤ s)
    (habs : nm ∉ (t.popAt os s).map HypothesisTracker.name) :
    (∀ u, s ≤ u → nm ∉ (t.popAt os u).map HypothesisTracker.name) ∧
    (s ≤ os.length → ∀ p ∈ t.run os, p.1 ≠ nm) := by
  refine ⟨absent_stays_absent t os nm s hend habs, ?_⟩
  intro hs p hp
  rw [run_eq_popAt] at hp
  rcases List.mem_map.mp hp with ⟨ht, hm, rfl⟩
  intro heq
  exact absent_stays_absent t os nm s hend habs os.length hs
    (List.mem_map.mpr ⟨ht, hm, heq⟩)

/-- Witness for C9: with a zero-capacity configuration the tracker (0, 1)
is gone at step 2 of a three-onset run and is still gone at step 3. -/
theorem dropped_tracker_absorbing_witness :
    (0, 1) ∉ (zeroCfg.popAt [0, 1, 2] 3).map HypothesisTracker.name := by
  have habs : (0, 1) ∉
      (zeroCfg.popAt [0, 1, 2] 2).map HypothesisTracker.name := by
    rw [TactusHypothesisTracker.popAt_eq_nil_of_zero_max zeroCfg
      [0, 1, 2] rfl 2]
    simp
  exact (dropped_tracker_absorbing zeroCfg [0, 1, 2] (0, 1) 2
    (by norm_num) habs).1 3 (by norm_num)

open TactusHypothesisTracker in
/-- C10: the latest-confidence accessor fails exactly on an empty
confidence history, but the list of trackers inspected by the selection
step of any engine iteration consists of just-updated trackers, whose
histories are never empty, so the failure branch is unreachable within a
run. -/
theorem conf_accessor_safety :
    (∀ ht : HypothesisTracker, ht.conf? = none ↔ ht.confs = []) ∧
    (∀ (t : TactusHypothesisTracker) (play : OngoingPlayback)
      (pop : List HypothesisTracker),
      ∀ ht ∈ (t.trim_similar_hypotheses play
        (t.updateAll play (pop ++ t.generate_new_hypothesis play))).1,
        ht.conf? ≠ none) := by
  have hiff : ∀ ht : HypothesisTracker, ht.conf? = none ↔ ht.confs = [] := by
    intro ht
    rw [HypothesisTracker.conf?, Option.map_eq_none']
    exact List.getLast?_eq_none_iff
  refine ⟨hiff, ?_⟩
  intro t play pop ht hm
  rw [ne_eq, hiff ht]
  exact kept_confs_nonempty t play pop ht hm

/-- Witness for C10: the tracker inspected by the selection step of the
two-onset run has a readable latest confidence. -/
theorem conf_accessor_safety_witness : htx.conf? ≠ none := by
  have hmem : htx ∈ (simpleCfg.trim_similar_hypotheses ⟨[0, 1], 2⟩
      (simpleCfg.updateAll ⟨[0, 1], 2⟩
        ([] ++ simpleCfg.generate_new_hypothesis ⟨[0, 1], 2⟩))).1 := by
    norm_num [htx, TactusHypothesisTracker.generate_new_hypothesis,
      TactusHypothesisTracker.updateAll, HypothesisTracker.update,
      HypothesisTracker.fromIndex,
      TactusHypothesisTracker.trim_similar_hypotheses,
      TactusHypothesisTracker.trim_aux, simpleCfg, sampleCfg, constEval,
      idCorr, constSim, List.range, List.range.loop, List.filterMap]
  exact conf_accessor_safety.2 simpleCfg ⟨[0, 1], 2⟩ [] htx hmem
